import Mathlib

/-!
Shallow embedding of `packages/cli/src/services/abstract-check-runner.ts`.

The source is an event-driven check-run orchestrator.  We embed its mutable
state (the `checks` and `timeouts` maps, the closure state of the two internal
event listeners, and the stream of emitted lifecycle events) as an explicit
`RunnerState`, and every code path that can touch that state (message
processing, timeout callbacks, the scheduling-delay callback, and the phases of
`run()`) as a pure state transformer.  External collaborators (asset fetchers,
short-link fetcher, broker, scheduler) are oracles supplied through `Env` /
`RunEnv`.  Scheduled-callback firings and incoming broker messages are modelled
as `Action`s; a run's concurrency is an arbitrary interleaving, i.e. an
arbitrary list of actions folded over the state.  Each action is modelled
atomically: the queue is a single-worker queue, and on every per-check terminal
path the timeout entry is removed synchronously before the first suspension
point, so no two code paths can interleave on the same check's terminal state.

JavaScript particulars preserved by the embedding: absent object fields are
`Option.none`; JS truthiness of a string-or-undefined field (empty string is
falsy) is `jsTruthyStr`; destructuring a missing `result.assets` throws, which
we model as an `Except.error` that aborts the rest of the handler without
emitting anything.
-/

namespace CheckRunner

/-- One scheduled check: the opaque `check` payload plus the optional
`testResultId` (source: the values of the `checks` map). -/
structure CheckRecord where
  check : String
  testResultId : Option String
deriving DecidableEq, Repr

/-- The `assets` object carried by a check result (`region`, `logPath`,
`checkRunDataPath`); every field may be absent. -/
structure CheckAssets where
  region : Option String
  logPath : Option String
  checkRunDataPath : Option String
deriving DecidableEq, Repr

/-- A decoded check result (`message.result`).  `assets` may be absent, in
which case destructuring it throws.  `logs` / `checkRunData` are the fields the
enrichment step assigns. -/
structure CheckResult where
  assets : Option CheckAssets
  hasFailures : Bool
  logs : Option String
  checkRunData : Option String
deriving DecidableEq, Repr

/-- A decoded broker message body; `result` may be absent. -/
structure Message where
  result : Option CheckResult
deriving DecidableEq, Repr

/-- Payload of a `CHECK_FAILED` emission: either the raw broker message (the
`error` subtopic) or the human-readable timeout message string. -/
inductive FailReason where
  | brokerMessage (m : Message)
  | timeoutMessage (text : String)
deriving DecidableEq, Repr

/-- The lifecycle events of the `Events` enum that the runner emits during a
run, with their payloads.  The source emits `CHECK_FINISHED` with only the
`check` payload; we additionally record the `checkRunId` of the emitting call
site (every emitting site has it in scope) so that per-check ordering can be
stated. -/
inductive Event where
  | checkInProgress (checkRunId : String) (check : String)
  | checkFailed (checkRunId : String) (check : String) (reason : FailReason)
  | checkSuccessful (checkRunId : String) (check : String) (result : CheckResult)
      (links : Option String)
  | checkFinished (checkRunId : String) (check : String)
  | runStarted (scheduled : List (String × CheckRecord)) (testSessionId : Option String)
  | runFinished (testSessionId : Option String)
  | errorEvent (err : String)
  | schedulingDelayExceeded
deriving DecidableEq, Repr

/-- Boolean membership in a list of `checkRunId`s (the key set of the
`timeouts` map). -/
def memS (k : String) : List String → Bool
  | [] => false
  | x :: xs => (x == k) || memS k xs

/-- `Map.delete` on the key set of the `timeouts` map. -/
def removeS (k : String) : List String → List String
  | [] => []
  | x :: xs => if x == k then removeS k xs else x :: removeS k xs

/-- `Map.set` on the key set of the `timeouts` map (idempotent on keys). -/
def addS (k : String) (l : List String) : List String :=
  if memS k l then l else l ++ [k]

/-- `Map.get` on the `checks` map, embedded as an association list. -/
def mapGet (k : String) : List (String × CheckRecord) → Option CheckRecord
  | [] => none
  | kv :: rest => if kv.1 == k then some kv.2 else mapGet k rest

/-- `Map.has` on the `checks` map. -/
def containsKey (k : String) : List (String × CheckRecord) → Bool
  | [] => false
  | kv :: rest => (kv.1 == k) || containsKey k rest

/-- `Map.set` for building the `checks` map: replace in place if the key
exists, append otherwise (JS `Map` insertion-order semantics). -/
def mapUpsert (k : String) (v : CheckRecord) (m : List (String × CheckRecord)) :
    List (String × CheckRecord) :=
  if containsKey k m then m.map (fun kv => if kv.1 == k then (k, v) else kv)
  else m ++ [(k, v)]

/-- `new Map(entries)`: fold the scheduled entries through `Map.set`. -/
def buildChecksMap (l : List (String × CheckRecord)) : List (String × CheckRecord) :=
  l.foldl (fun acc kv => mapUpsert kv.1 kv.2 acc) []

/-- `DEFAULT_CHECK_RUN_TIMEOUT_SECONDS` from the source. -/
def DEFAULT_CHECK_RUN_TIMEOUT_SECONDS : Nat := 300

/-- The support-guidance sentence appended to the timeout message when the
default timeout is in use. -/
def supportGuidanceText : String :=
  " Checkly may be experiencing problems. Please check https://is.checkly.online or reach out to support@checklyhq.com."

/-- The timeout failure message built inside the `setAllTimeouts` callback. -/
def timeoutErrorMessage (timeout : Nat) : String :=
  let base := "Reached timeout of " ++ Nat.repr timeout ++ " seconds waiting for check result."
  if timeout = DEFAULT_CHECK_RUN_TIMEOUT_SECONDS then base ++ supportGuidanceText else base

/-- The whole mutable state of an `AbstractCheckRunner` instance, plus the
closure state of the two internal listeners and the emitted event trace.
`sd*` fields embed `startSchedulingDelayTimeout` (its `scheduledCheckCount`
closure, the armed timer, and the captured `numChecks`); `acf*` fields embed
`allChecksFinished` (its `finishedCheckCount` closure, captured `numChecks`,
and whether the returned promise has resolved). -/
structure RunnerState where
  checks : List (String × CheckRecord)
  timeouts : List String
  testSessionId : Option String
  accountId : String
  timeout : Nat
  verbose : Bool
  sdListening : Bool
  sdCount : Nat
  sdNumChecks : Nat
  sdTimerPending : Bool
  acfListening : Bool
  finishedCheckCount : Nat
  acfNumChecks : Nat
  acfResolved : Bool
  events : List Event
deriving DecidableEq, Repr

/-- The constructor: empty maps, paused queue, listeners not yet registered. -/
def freshState (accountId : String) (timeout : Nat) (verbose : Bool) : RunnerState :=
  { checks := [], timeouts := [], testSessionId := none, accountId := accountId,
    timeout := timeout, verbose := verbose,
    sdListening := false, sdCount := 0, sdNumChecks := 0, sdTimerPending := false,
    acfListening := false, finishedCheckCount := 0, acfNumChecks := 0, acfResolved := false,
    events := [] }

/-- Oracles for the external collaborators reached from message processing:
`assets.getLogs`, `assets.getCheckRunData` (region, path) and
`testSessions.getResultShortLinks` (testSessionId, testResultId; may reject,
modelled as `Except.error`). -/
structure Env where
  getLogs : Option String → String → String
  getCheckRunData : Option String → String → String
  getResultShortLinks : String → String → Except Unit String

/-- `this.emit(event, ...)`: append to the trace and synchronously run the
registered internal listeners — the `CHECK_INPROGRESS` listener of
`startSchedulingDelayTimeout` (increment the count; `clearTimeout` exactly when
the new count equals the captured `numChecks`) and the `CHECK_FINISHED`
listener of `allChecksFinished` (increment the count; resolve the promise when
it equals the captured `numChecks`). -/
def emit (s : RunnerState) (e : Event) : RunnerState :=
  match e with
  | .checkInProgress _ _ =>
    if s.sdListening then
      { s with events := s.events ++ [e],
               sdCount := s.sdCount + 1,
               sdTimerPending := if s.sdCount + 1 = s.sdNumChecks then false else s.sdTimerPending }
    else { s with events := s.events ++ [e] }
  | .checkFinished _ _ =>
    if s.acfListening then
      { s with events := s.events ++ [e],
               finishedCheckCount := s.finishedCheckCount + 1,
               acfResolved := s.acfResolved || decide (s.finishedCheckCount + 1 = s.acfNumChecks) }
    else { s with events := s.events ++ [e] }
  | _ => { s with events := s.events ++ [e] }

/-- `disableTimeout(timeoutKey)`: `clearTimeout` + `Map.delete`. -/
def disableTimeout (s : RunnerState) (timeoutKey : String) : RunnerState :=
  { s with timeouts := removeS timeoutKey s.timeouts }

/-- `getShortLinks(testResultId)`: returns `undefined` when there is no
`testSessionId`; the REST call's rejection is swallowed by the bare `catch`
and also yields `undefined`. -/
def getShortLinks (env : Env) (testSessionId : Option String) (testResultId : String) :
    Option String :=
  match testSessionId with
  | none => none
  | some sid =>
    match env.getResultShortLinks sid testResultId with
    | .ok links => some links
    | .error _ => none

/-- Whether a string-or-absent JS value is truthy (absent and `""` are falsy). -/
def jsTruthyStr : Option String → Bool
  | none => false
  | some str => !(str == "")

/-- `processCheckResult(result)`: destructure `result.assets` (throws — the
`.error` branch — when the field is absent), then fetch and attach logs and
check-run data exactly when the corresponding path is truthy and
(verbose mode is on or the result reports failures). -/
def processCheckResult (env : Env) (verbose : Bool) (result : CheckResult) :
    Except Unit CheckResult :=
  match result.assets with
  | none => .error ()
  | some a =>
    let r1 := if jsTruthyStr a.logPath && (verbose || result.hasFailures) then
        { result with logs := some (env.getLogs a.region (a.logPath.getD "")) }
      else result
    let r2 := if jsTruthyStr a.checkRunDataPath && (verbose || r1.hasFailures) then
        { r1 with checkRunData := some (env.getCheckRunData a.region (a.checkRunDataPath.getD "")) }
      else r1
    .ok r2

/-- The `run-end` branch of `processMessage`: disable the timeout, extract
`result` (reading `.assets` off an absent `result` throws), enrich it, compute
the short links (`testResultId && result.hasFailures && await getShortLinks`),
then emit `CHECK_SUCCESSFUL` followed by `CHECK_FINISHED`.  A throw aborts the
handler after the timeout was disabled, emitting nothing (the queue never
observes the rejection). -/
def processRunEnd (env : Env) (s : RunnerState) (checkRunId : String) (entry : CheckRecord)
    (message : Message) : RunnerState :=
  let s1 := disableTimeout s checkRunId
  match message.result with
  | none => s1
  | some result =>
    match processCheckResult env s1.verbose result with
    | .error _ => s1
    | .ok enriched =>
      let links := if jsTruthyStr entry.testResultId && enriched.hasFailures then
          getShortLinks env s1.testSessionId (entry.testResultId.getD "")
        else none
      emit (emit s1 (.checkSuccessful checkRunId entry.check enriched links))
        (.checkFinished checkRunId entry.check)

/-- `processMessage(checkRunId, subtopic, message)`: discard silently when the
check has no live timeout entry or no check record; otherwise dispatch on the
subtopic (`run-start` / `run-end` / `error`; anything else is ignored). -/
def processMessage (env : Env) (s : RunnerState) (checkRunId subtopic : String)
    (message : Message) : RunnerState :=
  if memS checkRunId s.timeouts then
    match mapGet checkRunId s.checks with
    | none => s
    | some entry =>
      if subtopic == "run-start" then
        emit s (.checkInProgress checkRunId entry.check)
      else if subtopic == "run-end" then
        processRunEnd env s checkRunId entry message
      else if subtopic == "error" then
        emit (emit (disableTimeout s checkRunId)
            (.checkFailed checkRunId entry.check (.brokerMessage message)))
          (.checkFinished checkRunId entry.check)
      else s
  else s

/-- The body of the per-check timeout callback armed by `setAllTimeouts`:
delete the own registry entry, emit `CHECK_FAILED` with the timeout message,
then emit `CHECK_FINISHED`. -/
def fireTimeoutAct (s : RunnerState) (checkRunId : String) (check : String) : RunnerState :=
  let s1 := { s with timeouts := removeS checkRunId s.timeouts }
  emit (emit s1 (.checkFailed checkRunId check (.timeoutMessage (timeoutErrorMessage s.timeout))))
    (.checkFinished checkRunId check)

/-- The body of the scheduling-delay callback: emit
`MAX_SCHEDULING_DELAY_EXCEEDED` once and clear the own timer field. -/
def fireSchedulingDelayAct (s : RunnerState) : RunnerState :=
  let s1 := emit s .schedulingDelayExceeded
  { s1 with sdTimerPending := false }

/-- `setAllTimeouts()`: arm one timer per entry of the current `checks` map. -/
def setAllTimeouts (s : RunnerState) : RunnerState :=
  { s with timeouts := s.checks.foldl (fun acc kv => addS kv.1 acc) s.timeouts }

/-- `disableAllTimeouts()`: `disableTimeout` for every key of the `checks` map
(the `!this.checks` guard is never taken — `checks` is always a `Map`), then
clear the scheduling-delay timer. -/
def disableAllTimeouts (s : RunnerState) : RunnerState :=
  let s1 := s.checks.foldl (fun acc kv => disableTimeout acc kv.1) s
  { s1 with sdTimerPending := false }

/-- `startSchedulingDelayTimeout()`: no-op for an empty batch; otherwise arm
the delay timer and register the `CHECK_INPROGRESS` listener with a fresh
`scheduledCheckCount` closure. -/
def startSchedulingDelayTimeout (s : RunnerState) : RunnerState :=
  if s.checks.length = 0 then s
  else { s with sdTimerPending := true, sdListening := true, sdCount := 0,
                sdNumChecks := s.checks.length }

/-- `allChecksFinished()`: an already-resolved future for an empty batch;
otherwise register the `CHECK_FINISHED` listener with a fresh
`finishedCheckCount` closure and a pending future. -/
def startAllChecksFinished (s : RunnerState) : RunnerState :=
  if s.checks.length = 0 then { s with acfResolved := true }
  else { s with acfListening := true, finishedCheckCount := 0,
                acfNumChecks := s.checks.length, acfResolved := false }

/-- Lines 82–101 of `run()` after `scheduleChecks` succeeds: store
`testSessionId`, replace `checks` with the scheduled set, arm all per-check
timeouts, arm the scheduling-delay monitor, start observing completion, emit
`RUN_STARTED`, and release the queue. -/
def startRunningPhase (s : RunnerState) (testSessionId : Option String)
    (scheduled : List (String × CheckRecord)) : RunnerState :=
  let s1 := { s with testSessionId := testSessionId, checks := buildChecksMap scheduled }
  let s2 := setAllTimeouts s1
  let s3 := startSchedulingDelayTimeout s2
  let s4 := startAllChecksFinished s3
  emit s4 (.runStarted scheduled testSessionId)

/-- An asynchronous occurrence during the running phase: a decoded broker
message handed to the queue worker, the firing of a check's armed timeout
callback, or the firing of the scheduling-delay callback.  A timer that has
been cleared (its key left the registry, resp. the pending flag dropped)
cannot fire, so those actions are no-ops. -/
inductive Action where
  | msg (checkRunId : String) (subtopic : String) (message : Message)
  | fireTimeout (checkRunId : String)
  | fireSchedulingDelay
deriving DecidableEq, Repr

/-- One atomic occurrence.  For `fireTimeout` the callback reads `checkRunId`
and `check` from its closure; the closure's `check` equals the `checks`-map
entry because `checks` is not mutated during the running phase. -/
def stepA (env : Env) (s : RunnerState) (a : Action) : RunnerState :=
  match a with
  | .msg checkRunId subtopic message => processMessage env s checkRunId subtopic message
  | .fireTimeout checkRunId =>
    if memS checkRunId s.timeouts then
      match mapGet checkRunId s.checks with
      | some entry => fireTimeoutAct s checkRunId entry.check
      | none => s
    else s
  | .fireSchedulingDelay =>
    if s.sdTimerPending then fireSchedulingDelayAct s else s

/-- An arbitrary interleaving of occurrences during the running phase. -/
def runActions (env : Env) (s : RunnerState) (acts : List Action) : RunnerState :=
  acts.foldl (stepA env) s

/-- A message whose processing does not throw: a `run-end` body must carry a
`result` with an `assets` object. -/
def wfAction : Action → Bool
  | .msg _ subtopic message =>
    if subtopic == "run-end" then
      match message.result with
      | some r => r.assets.isSome
      | none => false
    else true
  | _ => true

/-- Outcomes of the steps of `run()` that can reject, plus the interleaving of
the waiting phase: `SocketClient.connect`, `configureResultListener`
(subscribe), and `scheduleChecks`. -/
structure RunEnv where
  connectResult : Except String Unit
  subscribeResult : Except String Unit
  scheduleResult : Except String (Option String × List (String × CheckRecord))
  env : Env
  actions : List Action

/-- How one invocation of `run()` ends: normally, through the catch branch, or
still awaiting completion (the `finally` block has not run yet). -/
inductive RunOutcome where
  | success
  | errored (err : String)
  | pending
deriving DecidableEq, Repr

/-- Result of one invocation of `run()`: the final runner state, whether the
broker connection was opened, whether `socketClient.end()` was reached, and
how the invocation ended. -/
structure RunResult where
  state : RunnerState
  socketOpened : Bool
  socketClosed : Bool
  outcome : RunOutcome
deriving DecidableEq, Repr

/-- The first exception raised in `run()` before completion is awaited, if
any (connect, then subscribe, then schedule). -/
def firstRunError (renv : RunEnv) : Option String :=
  match renv.connectResult with
  | .error e => some e
  | .ok _ =>
    match renv.subscribeResult with
    | .error e => some e
    | .ok _ =>
      match renv.scheduleResult with
      | .error e => some e
      | .ok _ => none

/-- `run()`: connect, subscribe, schedule, start the running phase, await
completion, emit `RUN_FINISHED`; any rejection of the three fallible steps is
caught — `disableAllTimeouts` then an `ERROR` emission — and the `finally`
block closes the socket iff it was opened and the `try`/`catch` finished. -/
def run (renv : RunEnv) (accountId : String) (timeout : Nat) (verbose : Bool) : RunResult :=
  let s0 := freshState accountId timeout verbose
  match renv.connectResult with
  | .error e =>
    { state := emit (disableAllTimeouts s0) (.errorEvent e),
      socketOpened := false, socketClosed := false, outcome := .errored e }
  | .ok _ =>
    match renv.subscribeResult with
    | .error e =>
      { state := emit (disableAllTimeouts s0) (.errorEvent e),
        socketOpened := true, socketClosed := true, outcome := .errored e }
    | .ok _ =>
      match renv.scheduleResult with
      | .error e =>
        { state := emit (disableAllTimeouts s0) (.errorEvent e),
          socketOpened := true, socketClosed := true, outcome := .errored e }
      | .ok (testSessionId, scheduled) =>
        let s1 := startRunningPhase s0 testSessionId scheduled
        let s2 := runActions renv.env s1 renv.actions
        if s2.acfResolved then
          { state := emit s2 (.runFinished s2.testSessionId),
            socketOpened := true, socketClosed := true, outcome := .success }
        else
          { state := s2, socketOpened := true, socketClosed := false, outcome := .pending }

/-- Is this event a `CHECK_INPROGRESS` for the given check? -/
def isInProgressFor (id : String) : Event → Bool
  | .checkInProgress cid _ => cid == id
  | _ => false

/-- Is this event a terminal (`CHECK_FAILED` or `CHECK_SUCCESSFUL`) emission
for the given check? -/
def isTerminalFor (id : String) : Event → Bool
  | .checkFailed cid _ _ => cid == id
  | .checkSuccessful cid _ _ _ => cid == id
  | _ => false

/-- Is this event a `CHECK_FINISHED` for the given check? -/
def isFinishedFor (id : String) : Event → Bool
  | .checkFinished cid _ => cid == id
  | _ => false

/-- Is this event one of the per-check lifecycle events of the given check? -/
def concernsCheck (id : String) (e : Event) : Bool :=
  isInProgressFor id e || isTerminalFor id e || isFinishedFor id e

/-- The subsequence of the trace made of the given check's lifecycle events. -/
def checkTrace (id : String) (tr : List Event) : List Event :=
  tr.filter (concernsCheck id)

/-- Shape of a not-yet-resolved check's lifecycle trace: only `in-progress`
events so far (in particular no `finished`). -/
def pendingTrace (id : String) (l : List Event) : Bool :=
  l.all (isInProgressFor id)

/-- Shape of a resolved check's lifecycle trace: some `in-progress` events,
then exactly one terminal event immediately followed by exactly one
`finished`, and nothing after it. -/
def resolvedTrace (id : String) : List Event → Bool
  | [t, f] => isTerminalFor id t && isFinishedFor id f
  | e :: b :: c :: rest => isInProgressFor id e && resolvedTrace id (b :: c :: rest)
  | _ => false

/-- Number of `CHECK_FINISHED` events in a trace. -/
def countFinished : List Event → Nat
  | [] => 0
  | .checkFinished _ _ :: rest => countFinished rest + 1
  | _ :: rest => countFinished rest

/-- Number of `CHECK_INPROGRESS` events in a trace. -/
def countInProgress : List Event → Nat
  | [] => 0
  | .checkInProgress _ _ :: rest => countInProgress rest + 1
  | _ :: rest => countInProgress rest

/-- Number of `MAX_SCHEDULING_DELAY_EXCEEDED` events in a trace. -/
def countSchedulingDelayExceeded : List Event → Nat
  | [] => 0
  | .schedulingDelayExceeded :: rest => countSchedulingDelayExceeded rest + 1
  | _ :: rest => countSchedulingDelayExceeded rest

/-- The distinct checks for which an `in-progress` event has been emitted. -/
def distinctInProgressIds (tr : List Event) : List String :=
  (tr.filterMap fun e => match e with
    | .checkInProgress cid _ => some cid
    | _ => none).dedup

/-- List-of-characters containment (substring of the underlying char list). -/
def charsContain (needle haystack : List Char) : Prop :=
  ∃ pre post, haystack = pre ++ needle ++ post

/-! ### Concrete instances used for evaluation -/

/-- A concrete oracle environment. -/
def envW : Env :=
  { getLogs := fun _ p => "logs-at-" ++ p,
    getCheckRunData := fun _ p => "data-at-" ++ p,
    getResultShortLinks := fun _ _ => .ok "short-link" }

/-- A concrete two-check batch. -/
def schedW : List (String × CheckRecord) :=
  [("a", { check := "check-a", testResultId := some "tr-a" }),
   ("b", { check := "check-b", testResultId := none })]

/-- The running-phase state right after scheduling the two-check batch. -/
def initW : RunnerState :=
  startRunningPhase (freshState "acct" 5 false) (some "sess") schedW

/-- A concrete well-formed check result. -/
def resultW : CheckResult :=
  { assets := some { region := some "eu", logPath := some "lp", checkRunDataPath := none },
    hasFailures := true, logs := none, checkRunData := none }

/-- A `run-end` message carrying `resultW`. -/
def runEndW : Message := { result := some resultW }

/-- A `run-end` message whose result has no `assets` field. -/
def noAssetsW : Message :=
  { result := some { assets := none, hasFailures := false, logs := none, checkRunData := none } }

/-- Run-start then run-end for check `a`. -/
def actsW : List Action :=
  [.msg "a" "run-start" { result := none }, .msg "a" "run-end" runEndW]

/-- Resolve check `a` by result and check `b` by timeout. -/
def actsBothW : List Action :=
  [.msg "a" "run-end" runEndW, .fireTimeout "b"]

/-- Two duplicate run-start messages for the same check `a`. -/
def dupStartActs : List Action :=
  [.msg "a" "run-start" { result := none }, .msg "a" "run-start" { result := none }]

/-- The state reached from `initW` by the duplicated run-start deliveries. -/
def dupStartState : RunnerState := runActions envW initW dupStartActs

/-- A run environment whose broker connect step rejects. -/
def renvErrW : RunEnv :=
  { connectResult := .error "boom", subscribeResult := .ok (),
    scheduleResult := .ok (some "sess", schedW), env := envW, actions := [] }

/-! ### The core running-phase invariant

`CoreInv M s` relates the mutable fields of the runner to the emitted trace,
for a running phase whose (never mutated) checks map is `M`: the timeout
registry's keys stay inside `M`, and the two listeners' closure counters agree
with the number of `CHECK_FINISHED` / `CHECK_INPROGRESS` events emitted so
far — which pins down exactly when the completion future has resolved and
whether the scheduling-delay timer is still pending. -/

structure CoreInv (M : List (String × CheckRecord)) (s : RunnerState) : Prop where
  checks_eq : s.checks = M
  tmSub : ∀ id, memS id s.timeouts = true → containsKey id M = true
  acfL : s.acfListening = decide (M.length ≠ 0)
  acfN : s.acfNumChecks = M.length
  acfC : s.finishedCheckCount = countFinished s.events
  acfR : s.acfResolved
      = (decide (M.length = 0) || decide (M.length ≤ countFinished s.events))
  sdL : s.sdListening = decide (M.length ≠ 0)
  sdN : s.sdNumChecks = M.length
  sdC : s.sdCount = countInProgress s.events
  sdP : s.sdTimerPending
      = (decide (M.length ≠ 0) && decide (countInProgress s.events < M.length)
          && decide (countSchedulingDelayExceeded s.events = 0))

/-! ### The per-check trace-shape invariant

A check that still has a live timeout entry has emitted only `in-progress`
events; a check whose timeout entry is gone has emitted some `in-progress`
events followed by exactly one terminal event (`failed` or `succeeded`)
immediately followed by exactly one `finished`, with nothing after it. -/

def ShapeInv (M : List (String × CheckRecord)) (s : RunnerState) : Prop :=
  ∀ id, containsKey id M = true →
    (memS id s.timeouts = true → pendingTrace id (checkTrace id s.events) = true)
    ∧ (memS id s.timeouts = false → resolvedTrace id (checkTrace id s.events) = true)


/-! ### Helper lemmas about the key-set operations -/

theorem memS_append (k : String) (l l' : List String) :
    memS k (l ++ l') = (memS k l || memS k l') := by
  induction l with
  | nil => simp [memS]
  | cons x xs ih => simp [memS, ih, Bool.or_assoc]

theorem memS_removeS (k k' : String) (l : List String) :
    memS k (removeS k' l) = (memS k l && !(k == k')) := by
  induction l with
  | nil => simp [memS, removeS]
  | cons x xs ih =>
    by_cases hx : x = k'
    · subst hx
      by_cases hk : k = x
      · subst hk; simp [memS, removeS, ih]
      · have hxk : (x == k) = false := by simp [beq_iff_eq]; exact fun h => hk h.symm
        simp [memS, removeS, ih, hxk]
    · have hxk' : (x == k') = false := by simp [beq_iff_eq, hx]
      by_cases hk : x = k
      · subst hk
        have hkx : (x == k') = false := hxk'
        simp [memS, removeS, hxk', ih, beq_iff_eq, hx]
      · have hxk : (x == k) = false := by simp [beq_iff_eq, hk]
        simp [memS, removeS, hxk', hxk, ih]

theorem memS_removeS_self (k : String) (l : List String) :
    memS k (removeS k l) = false := by
  simp [memS_removeS]

theorem memS_removeS_ne (k k' : String) (l : List String) (h : k ≠ k') :
    memS k (removeS k' l) = memS k l := by
  simp [memS_removeS, beq_iff_eq, h]

theorem removeS_of_not_mem (k : String) (l : List String) (h : memS k l = false) :
    removeS k l = l := by
  induction l with
  | nil => rfl
  | cons x xs ih =>
    simp only [memS, Bool.or_eq_false_iff] at h
    simp [removeS, h.1, ih h.2]

theorem removeS_removeS (k : String) (l : List String) :
    removeS k (removeS k l) = removeS k l :=
  removeS_of_not_mem k (removeS k l) (memS_removeS_self k l)

theorem memS_addS (k k' : String) (l : List String) :
    memS k (addS k' l) = (memS k l || k' == k) := by
  unfold addS
  by_cases h : memS k' l
  · simp only [h, if_true]
    by_cases hk : k' = k
    · subst hk; simp [h]
    · simp [beq_iff_eq, hk]
  · simp only [h, if_false, Bool.false_eq_true, memS_append, memS]
    simp

theorem memS_eq_false_all_nil (l : List String) (h : ∀ k, memS k l = false) : l = [] := by
  cases l with
  | nil => rfl
  | cons x xs => simpa [memS] using h x

/-! ### Helper lemmas about the checks map -/

theorem containsKey_cons (k : String) (kv : String × CheckRecord)
    (m : List (String × CheckRecord)) :
    containsKey k (kv :: m) = ((kv.1 == k) || containsKey k m) := rfl

theorem mapGet_isSome (k : String) (m : List (String × CheckRecord)) :
    (mapGet k m).isSome = containsKey k m := by
  induction m with
  | nil => rfl
  | cons kv rest ih =>
    by_cases h : kv.1 = k
    · simp [mapGet, containsKey, beq_iff_eq, h]
    · simp [mapGet, containsKey, beq_iff_eq, h, ih]

theorem containsKey_of_mapGet (k : String) (m : List (String × CheckRecord))
    (entry : CheckRecord) (h : mapGet k m = some entry) : containsKey k m = true := by
  rw [← mapGet_isSome, h]; rfl

/-! ### Helper lemmas about event counting and per-check traces -/

theorem countFinished_append (l l' : List Event) :
    countFinished (l ++ l') = countFinished l + countFinished l' := by
  induction l with
  | nil => simp [countFinished]
  | cons e rest ih => cases e <;> simp [countFinished, ih] <;> omega

theorem countInProgress_append (l l' : List Event) :
    countInProgress (l ++ l') = countInProgress l + countInProgress l' := by
  induction l with
  | nil => simp [countInProgress]
  | cons e rest ih => cases e <;> simp [countInProgress, ih] <;> omega

theorem countSchedulingDelayExceeded_append (l l' : List Event) :
    countSchedulingDelayExceeded (l ++ l')
      = countSchedulingDelayExceeded l + countSchedulingDelayExceeded l' := by
  induction l with
  | nil => simp [countSchedulingDelayExceeded]
  | cons e rest ih => cases e <;> simp [countSchedulingDelayExceeded, ih] <;> omega

theorem checkTrace_append (id : String) (l l' : List Event) :
    checkTrace id (l ++ l') = checkTrace id l ++ checkTrace id l' := by
  simp [checkTrace, List.filter_append]

theorem pendingTrace_append (id : String) (l l' : List Event) :
    pendingTrace id (l ++ l') = (pendingTrace id l && pendingTrace id l') := by
  simp [pendingTrace, List.all_append]

theorem pendingTrace_append_resolvedTrace (id : String) (l : List Event) (t f : Event)
    (hp : pendingTrace id l = true) (ht : isTerminalFor id t = true)
    (hf : isFinishedFor id f = true) : resolvedTrace id (l ++ [t, f]) = true := by
  induction l with
  | nil => simp [resolvedTrace, ht, hf]
  | cons e l ih =>
    simp only [pendingTrace, List.all_cons, Bool.and_eq_true] at hp
    have ih' := ih (by simp [pendingTrace, hp.2])
    cases l with
    | nil => simp [resolvedTrace, hp.1, ht, hf]
    | cons b l' =>
      cases l' with
      | nil => simpa [resolvedTrace, hp.1] using ih'
      | cons c l'' => simpa [resolvedTrace, hp.1] using ih'

/-! ### Field lemmas for `emit` and the state transformers -/

theorem emit_events (s : RunnerState) (e : Event) :
    (emit s e).events = s.events ++ [e] := by
  cases e <;> simp [emit] <;> split <;> rfl

theorem emit_checks (s : RunnerState) (e : Event) :
    (emit s e).checks = s.checks := by
  cases e <;> simp [emit] <;> split <;> rfl

theorem emit_timeouts (s : RunnerState) (e : Event) :
    (emit s e).timeouts = s.timeouts := by
  cases e <;> simp [emit] <;> split <;> rfl

theorem emit_testSessionId (s : RunnerState) (e : Event) :
    (emit s e).testSessionId = s.testSessionId := by
  cases e <;> simp [emit] <;> split <;> rfl

theorem emit_timeout (s : RunnerState) (e : Event) :
    (emit s e).timeout = s.timeout := by
  cases e <;> simp [emit] <;> split <;> rfl

theorem emit_verbose (s : RunnerState) (e : Event) :
    (emit s e).verbose = s.verbose := by
  cases e <;> simp [emit] <;> split <;> rfl

theorem emit_sdListening (s : RunnerState) (e : Event) :
    (emit s e).sdListening = s.sdListening := by
  cases e <;> simp [emit] <;> split <;> rfl

theorem emit_sdNumChecks (s : RunnerState) (e : Event) :
    (emit s e).sdNumChecks = s.sdNumChecks := by
  cases e <;> simp [emit] <;> split <;> rfl

theorem emit_acfListening (s : RunnerState) (e : Event) :
    (emit s e).acfListening = s.acfListening := by
  cases e <;> simp [emit] <;> split <;> rfl

theorem emit_acfNumChecks (s : RunnerState) (e : Event) :
    (emit s e).acfNumChecks = s.acfNumChecks := by
  cases e <;> simp [emit] <;> split <;> rfl

/-! ### Characterization of `processMessage` by guard and subtopic -/

theorem processMessage_no_timeout (env : Env) (s : RunnerState)
    (checkRunId subtopic : String) (message : Message)
    (h : memS checkRunId s.timeouts = false) :
    processMessage env s checkRunId subtopic message = s := by
  simp [processMessage, h]

theorem processMessage_no_entry (env : Env) (s : RunnerState)
    (checkRunId subtopic : String) (message : Message)
    (h : mapGet checkRunId s.checks = none) :
    processMessage env s checkRunId subtopic message = s := by
  by_cases hm : memS checkRunId s.timeouts <;> simp [processMessage, hm, h]

theorem processMessage_runStart (env : Env) (s : RunnerState) (checkRunId : String)
    (message : Message) (entry : CheckRecord)
    (h1 : memS checkRunId s.timeouts = true) (h2 : mapGet checkRunId s.checks = some entry) :
    processMessage env s checkRunId "run-start" message
      = emit s (.checkInProgress checkRunId entry.check) := by
  simp [processMessage, h1, h2]

theorem processMessage_runEnd (env : Env) (s : RunnerState) (checkRunId : String)
    (message : Message) (entry : CheckRecord)
    (h1 : memS checkRunId s.timeouts = true) (h2 : mapGet checkRunId s.checks = some entry) :
    processMessage env s checkRunId "run-end" message
      = processRunEnd env s checkRunId entry message := by
  simp [processMessage, h1, h2]

theorem processMessage_errorSub (env : Env) (s : RunnerState) (checkRunId : String)
    (message : Message) (entry : CheckRecord)
    (h1 : memS checkRunId s.timeouts = true) (h2 : mapGet checkRunId s.checks = some entry) :
    processMessage env s checkRunId "error" message
      = emit (emit (disableTimeout s checkRunId)
            (.checkFailed checkRunId entry.check (.brokerMessage message)))
          (.checkFinished checkRunId entry.check) := by
  simp [processMessage, h1, h2]

theorem processMessage_otherSub (env : Env) (s : RunnerState)
    (checkRunId subtopic : String) (message : Message)
    (h3 : subtopic ≠ "run-start") (h4 : subtopic ≠ "run-end") (h5 : subtopic ≠ "error") :
    processMessage env s checkRunId subtopic message = s := by
  by_cases hm : memS checkRunId s.timeouts
  · cases hg : mapGet checkRunId s.checks <;>
      simp [processMessage, hm, hg, beq_iff_eq, h3, h4, h5]
  · simp [processMessage, hm]

theorem processCheckResult_ok (env : Env) (verbose : Bool) (result : CheckResult)
    (a : CheckAssets) (h : result.assets = some a) :
    ∃ enriched, processCheckResult env verbose result = .ok enriched := by
  unfold processCheckResult
  rw [h]
  exact ⟨_, rfl⟩

theorem processCheckResult_throws (env : Env) (verbose : Bool) (result : CheckResult)
    (h : result.assets = none) :
    processCheckResult env verbose result = .error () := by
  simp [processCheckResult, h]

theorem processRunEnd_no_result (env : Env) (s : RunnerState) (checkRunId : String)
    (entry : CheckRecord) (message : Message) (h : message.result = none) :
    processRunEnd env s checkRunId entry message = disableTimeout s checkRunId := by
  simp [processRunEnd, h]

theorem processRunEnd_no_assets (env : Env) (s : RunnerState) (checkRunId : String)
    (entry : CheckRecord) (message : Message) (result : CheckResult)
    (h : message.result = some result) (ha : result.assets = none) :
    processRunEnd env s checkRunId entry message = disableTimeout s checkRunId := by
  simp [processRunEnd, h, processCheckResult_throws env _ result ha]

theorem processRunEnd_ok (env : Env) (s : RunnerState) (checkRunId : String)
    (entry : CheckRecord) (message : Message) (result : CheckResult) (a : CheckAssets)
    (h : message.result = some result) (ha : result.assets = some a) :
    ∃ enriched links,
      processRunEnd env s checkRunId entry message
        = emit (emit (disableTimeout s checkRunId)
              (.checkSuccessful checkRunId entry.check enriched links))
            (.checkFinished checkRunId entry.check) := by
  obtain ⟨enriched, he⟩ :=
    processCheckResult_ok env (disableTimeout s checkRunId).verbose result a ha
  simp only [processRunEnd, h, he]
  exact ⟨enriched, _, rfl⟩

/-! ### Characterization of the callback bodies -/

theorem fireTimeoutAct_spec (s : RunnerState) (checkRunId check : String) :
    fireTimeoutAct s checkRunId check
      = emit (emit { s with timeouts := removeS checkRunId s.timeouts }
            (.checkFailed checkRunId check (.timeoutMessage (timeoutErrorMessage s.timeout))))
          (.checkFinished checkRunId check) := rfl

theorem fireSchedulingDelayAct_spec (s : RunnerState) :
    fireSchedulingDelayAct s
      = { s with events := s.events ++ [.schedulingDelayExceeded], sdTimerPending := false } := rfl

/-! ### The map folds of `setAllTimeouts` and `disableAllTimeouts` -/

theorem foldAdd_memS (k : String) (m : List (String × CheckRecord)) (l : List String) :
    memS k (m.foldl (fun acc kv => addS kv.1 acc) l) = (memS k l || containsKey k m) := by
  induction m generalizing l with
  | nil => simp [containsKey]
  | cons kv m ih =>
    simp only [List.foldl_cons, ih, memS_addS, containsKey_cons]
    rw [Bool.or_assoc]

theorem setAllTimeouts_memS (s : RunnerState) (k : String) :
    memS k (setAllTimeouts s).timeouts = (memS k s.timeouts || containsKey k s.checks) := by
  simp [setAllTimeouts, foldAdd_memS]

theorem foldDisable_eq (m : List (String × CheckRecord)) (s : RunnerState) :
    m.foldl (fun acc kv => disableTimeout acc kv.1) s
      = { s with timeouts := m.foldl (fun acc kv => removeS kv.1 acc) s.timeouts } := by
  induction m generalizing s with
  | nil => rfl
  | cons kv m ih =>
    rw [List.foldl_cons, ih]
    rfl

theorem foldRemove_memS (k : String) (m : List (String × CheckRecord)) (l : List String) :
    memS k (m.foldl (fun acc kv => removeS kv.1 acc) l)
      = (memS k l && !(containsKey k m)) := by
  induction m generalizing l with
  | nil => simp [containsKey]
  | cons kv m ih =>
    simp only [List.foldl_cons, ih, memS_removeS, containsKey_cons]
    by_cases h : kv.1 = k
    · subst h; simp
    · have : (kv.1 == k) = false := by simp [beq_iff_eq, h]
      have h2 : (k == kv.1) = false := by simp [beq_iff_eq]; exact fun hh => h hh.symm
      simp [this, h2, Bool.and_assoc]

theorem disableAllTimeouts_spec (s : RunnerState) :
    disableAllTimeouts s
      = { s with timeouts := s.checks.foldl (fun acc kv => removeS kv.1 acc) s.timeouts,
                 sdTimerPending := false } := by
  simp [disableAllTimeouts, foldDisable_eq]

theorem disableAllTimeouts_empties (s : RunnerState)
    (h : ∀ id, memS id s.timeouts = true → containsKey id s.checks = true) :
    (disableAllTimeouts s).timeouts = [] := by
  rw [disableAllTimeouts_spec]
  refine memS_eq_false_all_nil _ fun k => ?_
  rw [foldRemove_memS]
  by_cases hm : memS k s.timeouts
  · simp [hm, h k hm]
  · simp [hm]

theorem coreInv_disableTimeout {M : List (String × CheckRecord)} {s : RunnerState}
    (hInv : CoreInv M s) (id : String) : CoreInv M (disableTimeout s id) := by
  refine ⟨hInv.checks_eq, ?_, hInv.acfL, hInv.acfN, hInv.acfC, hInv.acfR, hInv.sdL,
    hInv.sdN, hInv.sdC, hInv.sdP⟩
  intro k hk
  rw [disableTimeout] at hk
  simp only [memS_removeS, Bool.and_eq_true] at hk
  exact hInv.tmSub k hk.1

theorem coreInv_emit_plain {M : List (String × CheckRecord)} {s : RunnerState}
    (hInv : CoreInv M s) (e : Event)
    (hplain : emit s e = { s with events := s.events ++ [e] })
    (hf : countFinished [e] = 0) (hip : countInProgress [e] = 0)
    (hsd : countSchedulingDelayExceeded [e] = 0) : CoreInv M (emit s e) := by
  rw [hplain]
  refine ⟨hInv.checks_eq, hInv.tmSub, hInv.acfL, hInv.acfN, ?_, ?_, hInv.sdL, hInv.sdN,
    ?_, ?_⟩
  · simp [countFinished_append, hf, hInv.acfC]
  · simp [countFinished_append, hf, hInv.acfR]
  · simp [countInProgress_append, hip, hInv.sdC]
  · simp [countInProgress_append, countSchedulingDelayExceeded_append, hip, hsd, hInv.sdP]

theorem coreInv_emit_inProgress {M : List (String × CheckRecord)} {s : RunnerState}
    (hInv : CoreInv M s) (hn : M.length ≠ 0) (cid c : String) :
    CoreInv M (emit s (.checkInProgress cid c)) := by
  have hL : s.sdListening = true := by simp [hInv.sdL, hn]
  have hemit : emit s (.checkInProgress cid c)
      = { s with events := s.events ++ [.checkInProgress cid c],
                 sdCount := s.sdCount + 1,
                 sdTimerPending :=
                   if s.sdCount + 1 = s.sdNumChecks then false else s.sdTimerPending } := by
    simp [emit, hL]
  rw [hemit]
  refine ⟨hInv.checks_eq, hInv.tmSub, hInv.acfL, hInv.acfN, ?_, ?_, hInv.sdL, hInv.sdN,
    ?_, ?_⟩
  · simp [countFinished_append, countFinished, hInv.acfC]
  · simp [countFinished_append, countFinished, hInv.acfR]
  · simp [countInProgress_append, countInProgress, hInv.sdC]
  · have hc := hInv.sdC
    have hp := hInv.sdP
    have hN := hInv.sdN
    simp only [countInProgress_append, countSchedulingDelayExceeded_append,
      countInProgress, countSchedulingDelayExceeded, hc, hN]
    by_cases he : countInProgress s.events + 1 = M.length
    · simp only [he, if_true]
      have : ¬ (countInProgress s.events + 1 < M.length) := by omega
      simp [this]
    · simp only [he, if_false, hp, hN, hc]
      have harith : (countInProgress s.events + 1 < M.length)
          ↔ (countInProgress s.events < M.length) := by omega
      by_cases hlt : countInProgress s.events < M.length
      · simp [hlt, harith.mpr hlt, hn]
      · have h2 : ¬ (countInProgress s.events + 1 < M.length) := fun h => hlt (harith.mp h)
        simp [hlt, h2]

theorem coreInv_emit_finished {M : List (String × CheckRecord)} {s : RunnerState}
    (hInv : CoreInv M s) (hn : M.length ≠ 0) (cid c : String) :
    CoreInv M (emit s (.checkFinished cid c)) := by
  have hL : s.acfListening = true := by simp [hInv.acfL, hn]
  have hemit : emit s (.checkFinished cid c)
      = { s with events := s.events ++ [.checkFinished cid c],
                 finishedCheckCount := s.finishedCheckCount + 1,
                 acfResolved := s.acfResolved
                   || decide (s.finishedCheckCount + 1 = s.acfNumChecks) } := by
    simp [emit, hL]
  rw [hemit]
  refine ⟨hInv.checks_eq, hInv.tmSub, hInv.acfL, hInv.acfN, ?_, ?_, hInv.sdL, hInv.sdN,
    ?_, ?_⟩
  · simp [countFinished_append, countFinished, hInv.acfC]
  · have hc := hInv.acfC
    have hr := hInv.acfR
    have hN := hInv.acfN
    simp only [countFinished_append, countFinished, hr, hN, hc]
    rcases Nat.eq_zero_or_pos M.length with h0 | hpos
    · simp [h0]
    · have h0 : M.length ≠ 0 := by omega
      simp only [decide_eq_false h0, Bool.false_or]
      have : (M.length ≤ countFinished s.events ∨ countFinished s.events + 1 = M.length)
          ↔ M.length ≤ countFinished s.events + 1 := by omega
      by_cases hle : M.length ≤ countFinished s.events + 1
      · rcases this.mpr hle with h | h <;> simp [h, hle]
      · have h1 : ¬ M.length ≤ countFinished s.events := by omega
        have h2 : ¬ countFinished s.events + 1 = M.length := by omega
        simp [h1, h2, hle]
  · simp [countInProgress_append, countInProgress, hInv.sdC]
  · simp [countInProgress_append, countSchedulingDelayExceeded_append,
      countInProgress, countSchedulingDelayExceeded, hInv.sdP]

theorem stepA_frozen {M : List (String × CheckRecord)} {s : RunnerState}
    (hInv : CoreInv M s) (h0 : M.length = 0) (env : Env) (a : Action) :
    stepA env s a = s := by
  have hM : M = [] := List.length_eq_zero.mp h0
  have htm : ∀ id, memS id s.timeouts = false := by
    intro id
    by_cases h : memS id s.timeouts
    · have hc := hInv.tmSub id h
      rw [hM] at hc
      exact absurd hc (by simp [containsKey])
    · simpa using h
  cases a with
  | msg checkRunId subtopic message =>
    exact processMessage_no_timeout _ _ _ _ _ (htm _)
  | fireTimeout checkRunId => simp [stepA, htm]
  | fireSchedulingDelay =>
    have hp : s.sdTimerPending = false := by simp [hInv.sdP, h0]
    simp [stepA, hp]

theorem coreInv_stepA {M : List (String × CheckRecord)} {s : RunnerState}
    (hInv : CoreInv M s) (env : Env) (a : Action) : CoreInv M (stepA env s a) := by
  by_cases h0 : M.length = 0
  · rw [stepA_frozen hInv h0 env a]; exact hInv
  · cases a with
    | msg checkRunId subtopic message =>
      show CoreInv M (processMessage env s checkRunId subtopic message)
      by_cases hm : memS checkRunId s.timeouts
      · cases hg : mapGet checkRunId s.checks with
        | none => rw [processMessage_no_entry _ _ _ _ _ hg]; exact hInv
        | some entry =>
          by_cases hs1 : subtopic = "run-start"
          · subst hs1
            rw [processMessage_runStart _ _ _ _ entry hm hg]
            exact coreInv_emit_inProgress hInv h0 _ _
          · by_cases hs2 : subtopic = "run-end"
            · subst hs2
              rw [processMessage_runEnd _ _ _ _ entry hm hg]
              cases hr : message.result with
              | none =>
                rw [processRunEnd_no_result _ _ _ _ _ hr]
                exact coreInv_disableTimeout hInv _
              | some result =>
                cases ha : result.assets with
                | none =>
                  rw [processRunEnd_no_assets _ _ _ _ _ _ hr ha]
                  exact coreInv_disableTimeout hInv _
                | some a =>
                  obtain ⟨enriched, links, heq⟩ :=
                    processRunEnd_ok env s checkRunId entry message result a hr ha
                  rw [heq]
                  refine coreInv_emit_finished ?_ h0 _ _
                  exact coreInv_emit_plain (coreInv_disableTimeout hInv _) _ rfl rfl rfl rfl
            · by_cases hs3 : subtopic = "error"
              · subst hs3
                rw [processMessage_errorSub _ _ _ _ entry hm hg]
                refine coreInv_emit_finished ?_ h0 _ _
                exact coreInv_emit_plain (coreInv_disableTimeout hInv _) _ rfl rfl rfl rfl
              · rw [processMessage_otherSub _ _ _ _ _ hs1 hs2 hs3]; exact hInv
      · rw [processMessage_no_timeout _ _ _ _ _ (by simpa using hm)]; exact hInv
    | fireTimeout checkRunId =>
      by_cases hm : memS checkRunId s.timeouts
      · cases hg : mapGet checkRunId s.checks with
        | none =>
          have hstep : stepA env s (.fireTimeout checkRunId) = s := by simp [stepA, hm, hg]
          rw [hstep]; exact hInv
        | some entry =>
          have hstep : stepA env s (.fireTimeout checkRunId)
              = fireTimeoutAct s checkRunId entry.check := by simp [stepA, hm, hg]
          rw [hstep, fireTimeoutAct_spec]
          refine coreInv_emit_finished ?_ h0 _ _
          exact coreInv_emit_plain (coreInv_disableTimeout hInv checkRunId) _ rfl rfl rfl rfl
      · have hstep : stepA env s (.fireTimeout checkRunId) = s := by
          simp [stepA, hm]
        rw [hstep]; exact hInv
    | fireSchedulingDelay =>
      by_cases hp : s.sdTimerPending
      · have hstep : stepA env s .fireSchedulingDelay = fireSchedulingDelayAct s := by
          simp [stepA, hp]
        rw [hstep, fireSchedulingDelayAct_spec]
        refine ⟨hInv.checks_eq, hInv.tmSub, hInv.acfL, hInv.acfN, ?_, ?_, hInv.sdL,
          hInv.sdN, ?_, ?_⟩
        · simp [countFinished_append, countFinished, hInv.acfC]
        · simp [countFinished_append, countFinished, hInv.acfR]
        · simp [countInProgress_append, countInProgress, hInv.sdC]
        · simp [countSchedulingDelayExceeded_append, countSchedulingDelayExceeded,
            countInProgress_append, countInProgress]
      · have hstep : stepA env s .fireSchedulingDelay = s := by
          simp [stepA, hp]
        rw [hstep]; exact hInv

theorem coreInv_runActions {M : List (String × CheckRecord)} (env : Env) {s : RunnerState}
    (hInv : CoreInv M s) (acts : List Action) : CoreInv M (runActions env s acts) := by
  induction acts generalizing s with
  | nil => exact hInv
  | cons a acts ih => exact ih (coreInv_stepA hInv env a)

theorem coreInv_init (accountId : String) (timeout : Nat) (verbose : Bool)
    (tsid : Option String) (scheduled : List (String × CheckRecord)) :
    CoreInv (buildChecksMap scheduled)
      (startRunningPhase (freshState accountId timeout verbose) tsid scheduled) := by
  by_cases h0 : (buildChecksMap scheduled).length = 0
  · refine ⟨?_, ?_, ?_, ?_, ?_, ?_, ?_, ?_, ?_, ?_⟩ <;>
      simp [startRunningPhase, setAllTimeouts, startSchedulingDelayTimeout,
        startAllChecksFinished, freshState, emit, h0, foldAdd_memS, memS,
        countFinished_append, countFinished, countInProgress_append, countInProgress,
        countSchedulingDelayExceeded_append, countSchedulingDelayExceeded,
        List.length_eq_zero.mp h0, containsKey]
  · refine ⟨?_, ?_, ?_, ?_, ?_, ?_, ?_, ?_, ?_, ?_⟩ <;>
      simp [startRunningPhase, setAllTimeouts, startSchedulingDelayTimeout,
        startAllChecksFinished, freshState, emit, h0, foldAdd_memS, memS,
        countFinished_append, countFinished, countInProgress_append, countInProgress,
        countSchedulingDelayExceeded_append, countSchedulingDelayExceeded, Nat.pos_of_ne_zero h0]

theorem concernsCheck_inProgress (id cid c : String) :
    concernsCheck id (.checkInProgress cid c) = (cid == id) := by
  simp [concernsCheck, isInProgressFor, isTerminalFor, isFinishedFor]

theorem concernsCheck_failed (id cid c : String) (r : FailReason) :
    concernsCheck id (.checkFailed cid c r) = (cid == id) := by
  simp [concernsCheck, isInProgressFor, isTerminalFor, isFinishedFor]

theorem concernsCheck_successful (id cid c : String) (r : CheckResult) (l : Option String) :
    concernsCheck id (.checkSuccessful cid c r l) = (cid == id) := by
  simp [concernsCheck, isInProgressFor, isTerminalFor, isFinishedFor]

theorem concernsCheck_finished (id cid c : String) :
    concernsCheck id (.checkFinished cid c) = (cid == id) := by
  simp [concernsCheck, isInProgressFor, isTerminalFor, isFinishedFor]

theorem checkTrace_singleton (id : String) (e : Event) :
    checkTrace id [e] = if concernsCheck id e then [e] else [] := by
  simp [checkTrace, List.filter_cons]

/-- The two-emission terminal step (`run-end`, `error` subtopic, or a timeout
firing): remove the processed check's timeout entry and append a terminal
event plus a `finished` event for it.  This preserves the shape invariant. -/
theorem shapeInv_terminal_pair {M : List (String × CheckRecord)} {s : RunnerState}
    (hShape : ShapeInv M s) (checkRunId : String) (t f : Event)
    (hm : memS checkRunId s.timeouts = true)
    (ht : isTerminalFor checkRunId t = true) (hf : isFinishedFor checkRunId f = true)
    (htK : ∀ id, id ≠ checkRunId → concernsCheck id t = false)
    (hfK : ∀ id, id ≠ checkRunId → concernsCheck id f = false)
    (s' : RunnerState) (hTm : s'.timeouts = removeS checkRunId s.timeouts)
    (hEv : s'.events = s.events ++ [t, f]) : ShapeInv M s' := by
  intro id hid
  by_cases hidc : id = checkRunId
  · subst hidc
    constructor
    · intro hmem
      rw [hTm, memS_removeS_self] at hmem
      cases hmem
    · intro _
      have hpend := (hShape id hid).1 hm
      have htc : concernsCheck id t = true := by
        simp [concernsCheck, ht]
      have hfc : concernsCheck id f = true := by
        simp [concernsCheck, hf]
      rw [hEv, show [t, f] = [t] ++ [f] from rfl, checkTrace_append, checkTrace_append,
        checkTrace_singleton, checkTrace_singleton, htc, hfc, if_pos rfl, if_pos rfl]
      exact pendingTrace_append_resolvedTrace id _ t f hpend ht hf
  · have hmem : memS id s'.timeouts = memS id s.timeouts := by
      rw [hTm, memS_removeS_ne id checkRunId s.timeouts hidc]
    have htrace : checkTrace id s'.events = checkTrace id s.events := by
      rw [hEv, show [t, f] = [t] ++ [f] from rfl, checkTrace_append, checkTrace_append,
        checkTrace_singleton, checkTrace_singleton, htK id hidc, hfK id hidc]
      simp
    rw [hmem, htrace]
    exact hShape id hid

theorem shapeInv_stepA {M : List (String × CheckRecord)} {s : RunnerState}
    (hShape : ShapeInv M s) (env : Env) (a : Action)
    (hwf : wfAction a = true) : ShapeInv M (stepA env s a) := by
  cases a with
  | msg checkRunId subtopic message =>
    show ShapeInv M (processMessage env s checkRunId subtopic message)
    by_cases hm : memS checkRunId s.timeouts
    · cases hg : mapGet checkRunId s.checks with
      | none => rw [processMessage_no_entry _ _ _ _ _ hg]; exact hShape
      | some entry =>
        by_cases hs1 : subtopic = "run-start"
        · subst hs1
          rw [processMessage_runStart _ _ _ _ entry hm hg]
          intro id hid
          have hEv : (emit s (.checkInProgress checkRunId entry.check)).events
              = s.events ++ [Event.checkInProgress checkRunId entry.check] := emit_events _ _
          have hTm : (emit s (.checkInProgress checkRunId entry.check)).timeouts
              = s.timeouts := emit_timeouts _ _
          by_cases hidc : id = checkRunId
          · subst hidc
            constructor
            · intro _
              have hpend := (hShape id hid).1 hm
              rw [hEv, checkTrace_append, checkTrace_singleton, concernsCheck_inProgress]
              simp only [beq_self_eq_true, if_true, pendingTrace_append, hpend,
                Bool.true_and]
              simp [pendingTrace, isInProgressFor]
            · intro hmem
              rw [hTm] at hmem
              rw [hm] at hmem
              cases hmem
          · have hne : (checkRunId == id) = false := by
              simp [beq_iff_eq]; exact fun h => hidc h.symm
            have htrace : checkTrace id (s.events
                ++ [Event.checkInProgress checkRunId entry.check]) = checkTrace id s.events := by
              rw [checkTrace_append, checkTrace_singleton, concernsCheck_inProgress, hne]
              simp
            rw [hEv, hTm, htrace]
            exact hShape id hid
        · by_cases hs2 : subtopic = "run-end"
          · subst hs2
            rw [processMessage_runEnd _ _ _ _ entry hm hg]
            cases hr : message.result with
            | none =>
              exfalso
              simp [wfAction, hr] at hwf
            | some result =>
              simp only [wfAction, hr] at hwf
              obtain ⟨a, ha⟩ := Option.isSome_iff_exists.mp (by simpa using hwf)
              obtain ⟨enriched, links, heq⟩ :=
                processRunEnd_ok env s checkRunId entry message result a hr ha
              rw [heq]
              refine shapeInv_terminal_pair hShape checkRunId
                (.checkSuccessful checkRunId entry.check enriched links)
                (.checkFinished checkRunId entry.check) hm ?_ ?_ ?_ ?_ _ ?_ ?_
              · simp [isTerminalFor]
              · simp [isFinishedFor]
              · intro id hne
                rw [concernsCheck_successful]
                simp [beq_iff_eq]; exact fun h => hne h.symm
              · intro id hne
                rw [concernsCheck_finished]
                simp [beq_iff_eq]; exact fun h => hne h.symm
              · rw [emit_timeouts, emit_timeouts]; rfl
              · rw [emit_events, emit_events]; simp [disableTimeout]
          · by_cases hs3 : subtopic = "error"
            · subst hs3
              rw [processMessage_errorSub _ _ _ _ entry hm hg]
              refine shapeInv_terminal_pair hShape checkRunId
                (.checkFailed checkRunId entry.check (.brokerMessage message))
                (.checkFinished checkRunId entry.check) hm ?_ ?_ ?_ ?_ _ ?_ ?_
              · simp [isTerminalFor]
              · simp [isFinishedFor]
              · intro id hne
                rw [concernsCheck_failed]
                simp [beq_iff_eq]; exact fun h => hne h.symm
              · intro id hne
                rw [concernsCheck_finished]
                simp [beq_iff_eq]; exact fun h => hne h.symm
              · rw [emit_timeouts, emit_timeouts]; rfl
              · rw [emit_events, emit_events]; simp [disableTimeout]
            · rw [processMessage_otherSub _ _ _ _ _ hs1 hs2 hs3]; exact hShape
    · rw [processMessage_no_timeout _ _ _ _ _ (by simpa using hm)]; exact hShape
  | fireTimeout checkRunId =>
    by_cases hm : memS checkRunId s.timeouts
    · cases hg : mapGet checkRunId s.checks with
      | none =>
        have hstep : stepA env s (.fireTimeout checkRunId) = s := by simp [stepA, hm, hg]
        rw [hstep]; exact hShape
      | some entry =>
        have hstep : stepA env s (.fireTimeout checkRunId)
            = fireTimeoutAct s checkRunId entry.check := by simp [stepA, hm, hg]
        rw [hstep, fireTimeoutAct_spec]
        refine shapeInv_terminal_pair hShape checkRunId
          (.checkFailed checkRunId entry.check (.timeoutMessage (timeoutErrorMessage s.timeout)))
          (.checkFinished checkRunId entry.check) hm ?_ ?_ ?_ ?_ _ ?_ ?_
        · simp [isTerminalFor]
        · simp [isFinishedFor]
        · intro id hne
          rw [concernsCheck_failed]
          simp [beq_iff_eq]; exact fun h => hne h.symm
        · intro id hne
          rw [concernsCheck_finished]
          simp [beq_iff_eq]; exact fun h => hne h.symm
        · rw [emit_timeouts, emit_timeouts]
        · rw [emit_events, emit_events]; simp
    · have hstep : stepA env s (.fireTimeout checkRunId) = s := by simp [stepA, hm]
      rw [hstep]; exact hShape
  | fireSchedulingDelay =>
    by_cases hp : s.sdTimerPending
    · have hstep : stepA env s .fireSchedulingDelay = fireSchedulingDelayAct s := by
        simp [stepA, hp]
      rw [hstep, fireSchedulingDelayAct_spec]
      intro id hid
      have htrace : checkTrace id (s.events ++ [Event.schedulingDelayExceeded])
          = checkTrace id s.events := by
        rw [checkTrace_append, checkTrace_singleton]
        simp [concernsCheck, isInProgressFor, isTerminalFor, isFinishedFor]
      simp only [htrace]
      exact hShape id hid
    · have hstep : stepA env s .fireSchedulingDelay = s := by simp [stepA, hp]
      rw [hstep]; exact hShape

theorem shapeInv_runActions {M : List (String × CheckRecord)} (env : Env) {s : RunnerState}
    (hShape : ShapeInv M s) (acts : List Action)
    (hwf : ∀ a ∈ acts, wfAction a = true) : ShapeInv M (runActions env s acts) := by
  induction acts generalizing s with
  | nil => exact hShape
  | cons a acts ih =>
    exact ih (shapeInv_stepA hShape env a (hwf a (by simp)))
      (fun b hb => hwf b (by simp [hb]))

theorem startSchedulingDelayTimeout_timeouts (s : RunnerState) :
    (startSchedulingDelayTimeout s).timeouts = s.timeouts := by
  rw [startSchedulingDelayTimeout]; split <;> rfl

theorem startSchedulingDelayTimeout_events (s : RunnerState) :
    (startSchedulingDelayTimeout s).events = s.events := by
  rw [startSchedulingDelayTimeout]; split <;> rfl

theorem startAllChecksFinished_timeouts (s : RunnerState) :
    (startAllChecksFinished s).timeouts = s.timeouts := by
  rw [startAllChecksFinished]; split <;> rfl

theorem startAllChecksFinished_events (s : RunnerState) :
    (startAllChecksFinished s).events = s.events := by
  rw [startAllChecksFinished]; split <;> rfl

theorem startRunningPhase_timeouts_memS (s : RunnerState) (tsid : Option String)
    (scheduled : List (String × CheckRecord)) (id : String) :
    memS id (startRunningPhase s tsid scheduled).timeouts
      = (memS id s.timeouts || containsKey id (buildChecksMap scheduled)) := by
  simp only [startRunningPhase, emit_timeouts, startAllChecksFinished_timeouts,
    startSchedulingDelayTimeout_timeouts, setAllTimeouts_memS]

theorem startRunningPhase_events (s : RunnerState) (tsid : Option String)
    (scheduled : List (String × CheckRecord)) :
    (startRunningPhase s tsid scheduled).events
      = s.events ++ [.runStarted scheduled tsid] := by
  simp only [startRunningPhase, emit_events, startAllChecksFinished_events,
    startSchedulingDelayTimeout_events]
  rfl

theorem shapeInv_init (accountId : String) (timeout : Nat) (verbose : Bool)
    (tsid : Option String) (scheduled : List (String × CheckRecord)) :
    ShapeInv (buildChecksMap scheduled)
      (startRunningPhase (freshState accountId timeout verbose) tsid scheduled) := by
  intro id hid
  have hmem : memS id (startRunningPhase (freshState accountId timeout verbose)
      tsid scheduled).timeouts = true := by
    rw [startRunningPhase_timeouts_memS]
    simp [freshState, memS, hid]
  have htrace : checkTrace id (startRunningPhase (freshState accountId timeout verbose)
      tsid scheduled).events = [] := by
    rw [startRunningPhase_events]
    simp [freshState, checkTrace, List.filter_cons, concernsCheck, isInProgressFor,
      isTerminalFor, isFinishedFor]
  constructor
  · intro _
    rw [htrace]
    rfl
  · intro hmem'
    rw [hmem] at hmem'
    cases hmem'

/-! ### The timeout message and the support-guidance text

The support-guidance sentence contains the capital letter `C`, while the plain
timeout message (`"Reached timeout of <n> seconds waiting for check result."`)
never does — a decimal numeral consists of digit characters only — so the
guidance appears in the message exactly when the default timeout is in use. -/

theorem digitChar_ne_C (m : Nat) : Nat.digitChar m ≠ 'C' := by
  rcases Nat.lt_or_ge m 16 with h | h
  · interval_cases m <;> decide
  · have h0 : m ≠ 0 := by omega
    have h1 : m ≠ 1 := by omega
    have h2 : m ≠ 2 := by omega
    have h3 : m ≠ 3 := by omega
    have h4 : m ≠ 4 := by omega
    have h5 : m ≠ 5 := by omega
    have h6 : m ≠ 6 := by omega
    have h7 : m ≠ 7 := by omega
    have h8 : m ≠ 8 := by omega
    have h9 : m ≠ 9 := by omega
    have h10 : m ≠ 10 := by omega
    have h11 : m ≠ 11 := by omega
    have h12 : m ≠ 12 := by omega
    have h13 : m ≠ 13 := by omega
    have h14 : m ≠ 14 := by omega
    have h15 : m ≠ 15 := by omega
    simp [Nat.digitChar, h0, h1, h2, h3, h4, h5, h6, h7, h8, h9, h10, h11, h12,
      h13, h14, h15]

theorem toDigitsCore_ne_C (b : Nat) :
    ∀ (fuel n : Nat) (ds : List Char), (∀ c ∈ ds, c ≠ 'C') →
      ∀ c ∈ Nat.toDigitsCore b fuel n ds, c ≠ 'C' := by
  intro fuel
  induction fuel with
  | zero => intro n ds hds c hc; exact hds c hc
  | succ fuel ih =>
    intro n ds hds c hc
    rw [Nat.toDigitsCore] at hc
    by_cases h : n / b = 0
    · rw [if_pos h] at hc
      rcases List.mem_cons.mp hc with h1 | h1
      · rw [h1]; exact digitChar_ne_C _
      · exact hds c h1
    · rw [if_neg h] at hc
      refine ih (n / b) ((n % b).digitChar :: ds) ?_ c hc
      intro d hd
      rcases List.mem_cons.mp hd with h1 | h1
      · rw [h1]; exact digitChar_ne_C _
      · exact hds d h1

theorem repr_data_ne_C (n : Nat) : ∀ c ∈ (Nat.repr n).data, c ≠ 'C' := by
  intro c hc
  exact toDigitsCore_ne_C 10 (n + 1) n [] (by simp) c hc

theorem charsContain_mem {nd hs : List Char} (h : charsContain nd hs) {c : Char}
    (hc : c ∈ nd) : c ∈ hs := by
  obtain ⟨pre, post, rfl⟩ := h
  simp [hc]

theorem timeoutErrorMessage_support_iff (t : Nat) :
    charsContain supportGuidanceText.data (timeoutErrorMessage t).data
      ↔ t = DEFAULT_CHECK_RUN_TIMEOUT_SECONDS := by
  constructor
  · intro h
    by_contra hne
    have hbase : timeoutErrorMessage t
        = "Reached timeout of " ++ Nat.repr t ++ " seconds waiting for check result." := by
      simp [timeoutErrorMessage, hne]
    have hC : ('C' : Char) ∈ (timeoutErrorMessage t).data :=
      charsContain_mem h (by decide)
    rw [hbase, String.data_append, String.data_append] at hC
    simp only [List.mem_append] at hC
    rcases hC with (hC | hC) | hC
    · exact absurd hC (by decide)
    · exact repr_data_ne_C t 'C' hC rfl
    · exact absurd hC (by decide)
  · intro h
    subst h
    refine ⟨("Reached timeout of " ++ Nat.repr DEFAULT_CHECK_RUN_TIMEOUT_SECONDS
      ++ " seconds waiting for check result.").data, [], ?_⟩
    simp [timeoutErrorMessage, String.data_append]

theorem timeoutErrorMessage_contains_repr (t : Nat) :
    charsContain (Nat.repr t).data (timeoutErrorMessage t).data := by
  by_cases h : t = DEFAULT_CHECK_RUN_TIMEOUT_SECONDS
  · refine ⟨"Reached timeout of ".data,
      (" seconds waiting for check result." ++ supportGuidanceText).data, ?_⟩
    simp [timeoutErrorMessage, h, String.data_append]
  · refine ⟨"Reached timeout of ".data, " seconds waiting for check result.".data, ?_⟩
    simp [timeoutErrorMessage, h, String.data_append]

/-! ### Further helper lemmas for the claim theorems -/

theorem processCheckResult_spec (env : Env) (verbose : Bool) (result : CheckResult)
    (a : CheckAssets) (ha : result.assets = some a) :
    processCheckResult env verbose result = .ok { result with
      logs := if jsTruthyStr a.logPath && (verbose || result.hasFailures)
        then some (env.getLogs a.region (a.logPath.getD "")) else result.logs,
      checkRunData := if jsTruthyStr a.checkRunDataPath && (verbose || result.hasFailures)
        then some (env.getCheckRunData a.region (a.checkRunDataPath.getD ""))
        else result.checkRunData } := by
  obtain ⟨asts, hf, lg, cd⟩ := result
  simp only at ha
  subst ha
  unfold processCheckResult
  by_cases h1 : (jsTruthyStr a.logPath && (verbose || hf)) = true
  · by_cases h2 : (jsTruthyStr a.checkRunDataPath && (verbose || hf)) = true
    · simp [h1, h2]
    · simp [h1, h2]
  · by_cases h2 : (jsTruthyStr a.checkRunDataPath && (verbose || hf)) = true
    · simp [h1, h2]
    · simp [h1, h2]

theorem processRunEnd_timeouts (env : Env) (s : RunnerState) (checkRunId : String)
    (entry : CheckRecord) (message : Message) :
    memS checkRunId (processRunEnd env s checkRunId entry message).timeouts = false := by
  cases hr : message.result with
  | none =>
    rw [processRunEnd_no_result _ _ _ _ _ hr, disableTimeout]
    exact memS_removeS_self _ _
  | some result =>
    cases ha : result.assets with
    | none =>
      rw [processRunEnd_no_assets _ _ _ _ _ _ hr ha, disableTimeout]
      exact memS_removeS_self _ _
    | some a =>
      obtain ⟨enriched, links, heq⟩ := processRunEnd_ok env s checkRunId entry message result a hr ha
      rw [heq, emit_timeouts, emit_timeouts, disableTimeout]
      exact memS_removeS_self _ _

theorem stepA_events_extend (env : Env) (s : RunnerState) (a : Action) :
    ∃ l, (stepA env s a).events = s.events ++ l := by
  cases a with
  | msg checkRunId subtopic message =>
    show ∃ l, (processMessage env s checkRunId subtopic message).events = s.events ++ l
    by_cases hm : memS checkRunId s.timeouts
    · cases hg : mapGet checkRunId s.checks with
      | none => exact ⟨[], by rw [processMessage_no_entry _ _ _ _ _ hg]; simp⟩
      | some entry =>
        by_cases hs1 : subtopic = "run-start"
        · subst hs1
          rw [processMessage_runStart _ _ _ _ entry hm hg, emit_events]
          exact ⟨_, rfl⟩
        · by_cases hs2 : subtopic = "run-end"
          · subst hs2
            rw [processMessage_runEnd _ _ _ _ entry hm hg]
            cases hr : message.result with
            | none =>
              rw [processRunEnd_no_result _ _ _ _ _ hr]
              exact ⟨[], by simp [disableTimeout]⟩
            | some result =>
              cases ha : result.assets with
              | none =>
                rw [processRunEnd_no_assets _ _ _ _ _ _ hr ha]
                exact ⟨[], by simp [disableTimeout]⟩
              | some a =>
                obtain ⟨enriched, links, heq⟩ :=
                  processRunEnd_ok env s checkRunId entry message result a hr ha
                rw [heq, emit_events, emit_events]
                exact ⟨[Event.checkSuccessful checkRunId entry.check enriched links,
                  Event.checkFinished checkRunId entry.check], by simp [disableTimeout]⟩
          · by_cases hs3 : subtopic = "error"
            · subst hs3
              rw [processMessage_errorSub _ _ _ _ entry hm hg, emit_events, emit_events]
              exact ⟨[Event.checkFailed checkRunId entry.check (.brokerMessage message),
                Event.checkFinished checkRunId entry.check], by simp [disableTimeout]⟩
            · rw [processMessage_otherSub _ _ _ _ _ hs1 hs2 hs3]
              exact ⟨[], by simp⟩
    · rw [processMessage_no_timeout _ _ _ _ _ (by simpa using hm)]
      exact ⟨[], by simp⟩
  | fireTimeout checkRunId =>
    by_cases hm : memS checkRunId s.timeouts
    · cases hg : mapGet checkRunId s.checks with
      | none => exact ⟨[], by simp [stepA, hm, hg]⟩
      | some entry =>
        have hstep : stepA env s (.fireTimeout checkRunId)
            = fireTimeoutAct s checkRunId entry.check := by simp [stepA, hm, hg]
        rw [hstep, fireTimeoutAct_spec, emit_events, emit_events]
        exact ⟨[Event.checkFailed checkRunId entry.check
            (.timeoutMessage (timeoutErrorMessage s.timeout)),
          Event.checkFinished checkRunId entry.check], by simp⟩
    · exact ⟨[], by simp [stepA, hm]⟩
  | fireSchedulingDelay =>
    by_cases hp : s.sdTimerPending
    · have hstep : stepA env s .fireSchedulingDelay = fireSchedulingDelayAct s := by
        simp [stepA, hp]
      rw [hstep, fireSchedulingDelayAct_spec]
      exact ⟨[Event.schedulingDelayExceeded], rfl⟩
    · exact ⟨[], by simp [stepA, hp]⟩

theorem runActions_events_extend (env : Env) (s : RunnerState) (acts : List Action) :
    ∃ l, (runActions env s acts).events = s.events ++ l := by
  induction acts generalizing s with
  | nil => exact ⟨[], by simp [runActions]⟩
  | cons a acts ih =>
    obtain ⟨l1, h1⟩ := stepA_events_extend env s a
    obtain ⟨l2, h2⟩ := ih (stepA env s a)
    exact ⟨l1 ++ l2, by
      show (runActions env (stepA env s a) acts).events = s.events ++ (l1 ++ l2)
      rw [h2, h1, List.append_assoc]⟩

/-! ### The claim theorems -/

/-- Claim C1: in any interleaving of well-formed messages and timer firings
over a freshly started batch, every check of the batch has, at every point,
either a still-live timeout entry and a lifecycle trace of only `in-progress`
events (so no `finished` yet), or no entry and a lifecycle trace that ends in
exactly one terminal event (`failed` or `succeeded`) immediately followed by
exactly one `finished` and nothing after it.  Hence `finished` is emitted
exactly once per resolved check, strictly after a terminal event, never
duplicated, never for an already-finished check, and the timeout path and the
message path are mutually exclusive (only one terminal event ever appears). -/
theorem finished_exactly_once_after_terminal (accountId : String) (timeout : Nat)
    (verbose : Bool) (tsid : Option String) (scheduled : List (String × CheckRecord))
    (env : Env) (acts : List Action) (hwf : ∀ a ∈ acts, wfAction a = true) (id : String)
    (s : RunnerState)
    (hs : s = runActions env
      (startRunningPhase (freshState accountId timeout verbose) tsid scheduled) acts)
    (hid : containsKey id s.checks = true) :
    (memS id s.timeouts = true → pendingTrace id (checkTrace id s.events) = true)
    ∧ (memS id s.timeouts = false → resolvedTrace id (checkTrace id s.events) = true) := by
  have hCore := coreInv_runActions env
    (coreInv_init accountId timeout verbose tsid scheduled) acts
  have hShape := shapeInv_runActions env
    (shapeInv_init accountId timeout verbose tsid scheduled) acts hwf
  rw [← hs] at hCore hShape
  rw [hCore.checks_eq] at hid
  exact hShape id hid

theorem finished_exactly_once_after_terminal_witness :
    resolvedTrace "a" (checkTrace "a" (runActions envW initW actsW).events) = true := by
  have h := finished_exactly_once_after_terminal "acct" 5 false (some "sess") schedW envW
    actsW (by decide) "a" (runActions envW initW actsW) rfl (by decide)
  exact h.2 (by decide)

/-- Claim C2: processing a `run-end` message for a check with a live timeout
entry and a known check record removes the timeout entry and emits
`CHECK_SUCCESSFUL` (with the result enriched by the log and check-run-data
fetches exactly when the corresponding path is truthy and verbose mode is on
or the result reports failures, and with short links exactly when the record
has a truthy `testResultId` and the result reports failures) followed by
`CHECK_FINISHED`; a rejected short-link fetch is swallowed into `none`. -/
theorem runEnd_success_enrichment (env : Env) (s : RunnerState) (checkRunId : String)
    (message : Message) (entry : CheckRecord) (result : CheckResult) (a : CheckAssets)
    (hm : memS checkRunId s.timeouts = true)
    (hg : mapGet checkRunId s.checks = some entry)
    (hr : message.result = some result) (ha : result.assets = some a) :
    memS checkRunId (processMessage env s checkRunId "run-end" message).timeouts = false
    ∧ (processMessage env s checkRunId "run-end" message).events = s.events
      ++ [Event.checkSuccessful checkRunId entry.check
            { result with
              logs := if jsTruthyStr a.logPath && (s.verbose || result.hasFailures)
                then some (env.getLogs a.region (a.logPath.getD "")) else result.logs,
              checkRunData :=
                if jsTruthyStr a.checkRunDataPath && (s.verbose || result.hasFailures)
                then some (env.getCheckRunData a.region (a.checkRunDataPath.getD ""))
                else result.checkRunData }
            (if jsTruthyStr entry.testResultId && result.hasFailures
              then getShortLinks env s.testSessionId (entry.testResultId.getD "") else none),
         Event.checkFinished checkRunId entry.check]
    ∧ (∀ sid trid, s.testSessionId = some sid → env.getResultShortLinks sid trid = .error ()
        → getShortLinks env s.testSessionId trid = none) := by
  have hpm := processMessage_runEnd env s checkRunId message entry hm hg
  refine ⟨?_, ?_, ?_⟩
  · rw [hpm]
    exact processRunEnd_timeouts env s checkRunId entry message
  · rw [hpm]
    unfold processRunEnd
    rw [hr]
    have hpc := processCheckResult_spec env s.verbose result a ha
    simp only [disableTimeout]
    rw [hpc]
    rw [emit_events, emit_events]
    simp
  · intro sid trid hsid herr
    rw [hsid]
    simp [getShortLinks, herr]

theorem runEnd_success_enrichment_witness :
    memS "a" (processMessage envW initW "a" "run-end" runEndW).timeouts = false := by
  have h := runEnd_success_enrichment envW initW "a" runEndW
    { check := "check-a", testResultId := some "tr-a" } resultW
    { region := some "eu", logPath := some "lp", checkRunDataPath := none }
    (by decide) (by decide) rfl rfl
  exact h.1

/-- Claim C3: a message whose `checkRunId` has no live timeout entry, or has
one but no check record, is discarded silently — the state (and hence the
trace and every listener counter derived from it) is unchanged.  In
particular, a second `run-end` for a check already resolved by a first
`run-end` is a no-op, because the first one removed the timeout entry. -/
theorem stale_or_unknown_message_discarded (env : Env) (s : RunnerState)
    (checkRunId subtopic : String) (message : Message) :
    ((memS checkRunId s.timeouts = false ∨ mapGet checkRunId s.checks = none) →
      processMessage env s checkRunId subtopic message = s)
    ∧ (∀ (entry : CheckRecord) (message' : Message), memS checkRunId s.timeouts = true →
        mapGet checkRunId s.checks = some entry →
        processMessage env (processMessage env s checkRunId "run-end" message)
            checkRunId "run-end" message'
          = processMessage env s checkRunId "run-end" message) := by
  constructor
  · rintro (h | h)
    · exact processMessage_no_timeout env s checkRunId subtopic message h
    · exact processMessage_no_entry env s checkRunId subtopic message h
  · intro entry message' hm hg
    rw [processMessage_runEnd env s checkRunId message entry hm hg]
    exact processMessage_no_timeout env _ checkRunId "run-end" message'
      (processRunEnd_timeouts env s checkRunId entry message)

theorem stale_or_unknown_message_discarded_witness :
    processMessage envW initW "zz" "run-end" runEndW = initW :=
  (stale_or_unknown_message_discarded envW initW "zz" "run-end" runEndW).1
    (Or.inl (by decide))

/-- Claim C4: if any of the fallible steps of `run()` before completion is
awaited rejects (connect, subscribe, schedule), the run ends in the error
terminal state: the timeout registry and the scheduling-delay timer are
cleared, the trace is exactly one `ERROR` event carrying the causing
condition (in particular no `RUN_FINISHED`), and on every exit path of
`run()` — error or success — the broker connection is closed iff it was
opened. -/
theorem run_error_terminal_cleanup (renv : RunEnv) (accountId : String) (timeout : Nat)
    (verbose : Bool) :
    (∀ e, firstRunError renv = some e →
      (run renv accountId timeout verbose).state.events = [.errorEvent e]
      ∧ (run renv accountId timeout verbose).state.timeouts = []
      ∧ (run renv accountId timeout verbose).state.sdTimerPending = false
      ∧ (run renv accountId timeout verbose).outcome = .errored e
      ∧ (run renv accountId timeout verbose).socketClosed
          = (run renv accountId timeout verbose).socketOpened)
    ∧ ((run renv accountId timeout verbose).outcome ≠ .pending →
      (run renv accountId timeout verbose).socketClosed
        = (run renv accountId timeout verbose).socketOpened) := by
  obtain ⟨cr, sr, schr, env, acts⟩ := renv
  cases cr with
  | error e' =>
    constructor
    · intro e he
      simp only [firstRunError] at he
      cases he
      refine ⟨?_, ?_, ?_, ?_, ?_⟩ <;>
        simp [run, freshState, disableAllTimeouts_spec, emit]
    · intro _
      simp [run]
  | ok u =>
    cases sr with
    | error e' =>
      constructor
      · intro e he
        simp only [firstRunError] at he
        cases he
        refine ⟨?_, ?_, ?_, ?_, ?_⟩ <;>
          simp [run, freshState, disableAllTimeouts_spec, emit]
      · intro _
        simp [run]
    | ok v =>
      cases schr with
      | error e' =>
        constructor
        · intro e he
          simp only [firstRunError] at he
          cases he
          refine ⟨?_, ?_, ?_, ?_, ?_⟩ <;>
            simp [run, freshState, disableAllTimeouts_spec, emit]
        · intro _
          simp [run]
      | ok pr =>
        obtain ⟨tsid, scheduled⟩ := pr
        constructor
        · intro e he
          simp only [firstRunError] at he
          cases he
        · intro hnp
          by_cases hres : (runActions env (startRunningPhase
              (freshState accountId timeout verbose) tsid scheduled) acts).acfResolved
          · simp [run, hres]
          · exfalso
            apply hnp
            simp [run, hres]

theorem run_error_terminal_cleanup_witness :
    (run renvErrW "acct" 5 false).state.events = [.errorEvent "boom"] :=
  ((run_error_terminal_cleanup renvErrW "acct" 5 false).1 "boom" rfl).1

/-- Claim C5: the completion future of `allChecksFinished` is resolved exactly
when the number of `CHECK_FINISHED` events observed since the running phase
started reaches the batch size fixed at that moment (the size of the checks
map); for an empty batch it is resolved immediately; and resolution is stable
(it never un-resolves, i.e. it flips at most once). -/
theorem completion_future_spec (accountId : String) (timeout : Nat) (verbose : Bool)
    (tsid : Option String) (scheduled : List (String × CheckRecord)) (env : Env)
    (acts : List Action) (s : RunnerState)
    (hs : s = runActions env
      (startRunningPhase (freshState accountId timeout verbose) tsid scheduled) acts) :
    (s.acfResolved = true ↔ ((buildChecksMap scheduled).length = 0
      ∨ (buildChecksMap scheduled).length ≤ countFinished s.events))
    ∧ (scheduled = [] → (startRunningPhase (freshState accountId timeout verbose)
        tsid scheduled).acfResolved = true)
    ∧ (∀ acts', s.acfResolved = true → (runActions env s acts').acfResolved = true) := by
  have hCore := coreInv_runActions env
    (coreInv_init accountId timeout verbose tsid scheduled) acts
  rw [← hs] at hCore
  refine ⟨?_, ?_, ?_⟩
  · rw [hCore.acfR]
    simp
  · intro hsch
    subst hsch
    have h := (coreInv_init accountId timeout verbose tsid []).acfR
    simpa [buildChecksMap] using h
  · intro acts' hres
    have hCore' := coreInv_runActions env hCore acts'
    obtain ⟨l, hl⟩ := runActions_events_extend env s acts'
    rw [hCore'.acfR, hl, countFinished_append]
    rw [hCore.acfR] at hres
    simp only [Bool.or_eq_true, decide_eq_true_eq] at hres ⊢
    rcases hres with h | h
    · exact Or.inl h
    · exact Or.inr (by omega)

theorem completion_future_spec_witness :
    (runActions envW initW actsBothW).acfResolved = true := by
  have h := completion_future_spec "acct" 5 false (some "sess") schedW envW actsBothW
    (runActions envW initW actsBothW) rfl
  exact h.1.mpr (Or.inr (by decide))

/-- Claim C6: a firing timeout callback removes its own registry entry, emits
`CHECK_FAILED` with a message that states the configured timeout in seconds
(the decimal numeral of the timeout appears in it), then emits
`CHECK_FINISHED`; and the message contains the support-guidance text (status
page and support contact) iff the configured timeout equals the documented
default of 300 seconds. -/
theorem timeout_callback_spec (s : RunnerState) (checkRunId check : String) :
    (fireTimeoutAct s checkRunId check).timeouts = removeS checkRunId s.timeouts
    ∧ (fireTimeoutAct s checkRunId check).events = s.events
      ++ [Event.checkFailed checkRunId check
            (.timeoutMessage (timeoutErrorMessage s.timeout)),
          Event.checkFinished checkRunId check]
    ∧ (charsContain supportGuidanceText.data (timeoutErrorMessage s.timeout).data
        ↔ s.timeout = DEFAULT_CHECK_RUN_TIMEOUT_SECONDS)
    ∧ charsContain (Nat.repr s.timeout).data (timeoutErrorMessage s.timeout).data := by
  refine ⟨?_, ?_, timeoutErrorMessage_support_iff s.timeout,
    timeoutErrorMessage_contains_repr s.timeout⟩
  · rw [fireTimeoutAct_spec, emit_timeouts, emit_timeouts]
  · rw [fireTimeoutAct_spec, emit_events, emit_events]
    simp

/-- Counterexample to claim C7 as stated: after two duplicated `run-start`
deliveries for the same check of a two-check batch, only one distinct check
has reached in-progress — fewer than `numChecks` — yet the scheduling-delay
timer has been cancelled (the listener counts in-progress events, not
distinct checks), so the callback can no longer fire, contradicting the
claimed "fires iff fewer than numChecks distinct checks reached
in-progress". -/
theorem schedulingDelay_distinct_counterexample :
    (distinctInProgressIds dupStartState.events).length = 1
    ∧ dupStartState.sdNumChecks = 2
    ∧ dupStartState.sdTimerPending = false
    ∧ stepA envW dupStartState .fireSchedulingDelay = dupStartState
    ∧ countSchedulingDelayExceeded dupStartState.events = 0 :=
  ⟨by decide, by decide, by decide, by decide, by decide⟩

/-- Claim C7 (amended): the scheduling-delay callback can fire (its timer is
pending) iff the batch is non-empty, fewer than `numChecks` *in-progress
events* (counting duplicates for the same check) have been observed, and it
has not fired already; once the count of in-progress events reaches
`numChecks` the firing action is a no-op; and arming is a no-op when the
batch is empty. -/
theorem schedulingDelay_event_count_spec (accountId : String) (timeout : Nat)
    (verbose : Bool) (tsid : Option String) (scheduled : List (String × CheckRecord))
    (env : Env) (acts : List Action) (s : RunnerState)
    (hs : s = runActions env
      (startRunningPhase (freshState accountId timeout verbose) tsid scheduled) acts) :
    (s.sdTimerPending = true ↔ ((buildChecksMap scheduled).length ≠ 0
      ∧ countInProgress s.events < (buildChecksMap scheduled).length
      ∧ countSchedulingDelayExceeded s.events = 0))
    ∧ ((buildChecksMap scheduled).length ≤ countInProgress s.events →
        stepA env s .fireSchedulingDelay = s)
    ∧ (∀ s' : RunnerState, s'.checks = [] → startSchedulingDelayTimeout s' = s') := by
  have hCore := coreInv_runActions env
    (coreInv_init accountId timeout verbose tsid scheduled) acts
  rw [← hs] at hCore
  refine ⟨?_, ?_, ?_⟩
  · rw [hCore.sdP]
    simp [and_assoc]
  · intro hge
    have hlt : ¬ (countInProgress s.events < (buildChecksMap scheduled).length) := by omega
    have hp : s.sdTimerPending = false := by
      rw [hCore.sdP]
      simp [hlt]
    simp [stepA, hp]
  · intro s' hc
    simp [startSchedulingDelayTimeout, hc]

theorem schedulingDelay_event_count_spec_witness :
    stepA envW dupStartState .fireSchedulingDelay = dupStartState := by
  have h := schedulingDelay_event_count_spec "acct" 5 false (some "sess") schedW envW
    dupStartActs dupStartState rfl
  exact h.2.1 (by decide)

/-- Claim C8: disabling a single check's timeout is idempotent — on a
`checkRunId` with no registered entry it is a complete no-op (the state is
unchanged, hence the timeouts map and everything else), and disabling twice
leaves the same state as disabling once. -/
theorem disableTimeout_idempotent (s : RunnerState) (checkRunId : String) :
    (memS checkRunId s.timeouts = false → disableTimeout s checkRunId = s)
    ∧ disableTimeout (disableTimeout s checkRunId) checkRunId
      = disableTimeout s checkRunId := by
  constructor
  · intro h
    rw [disableTimeout, removeS_of_not_mem checkRunId s.timeouts h]
  · simp only [disableTimeout]
    simp [removeS_removeS]

theorem disableTimeout_idempotent_witness : disableTimeout initW "zz" = initW :=
  (disableTimeout_idempotent initW "zz").1 (by decide)

/-- Claim C9: at every point of the running phase every key of the timeouts
map is also a key of the checks map (entries are created only from the checks
map and only ever removed afterwards); consequently `disableAllTimeouts`,
which iterates the checks map's keys, cancels every remaining timeout entry
(the registry is empty afterwards) and clears the scheduling-delay timer. -/
theorem timeouts_subset_checks_invariant (accountId : String) (timeout : Nat)
    (verbose : Bool) (tsid : Option String) (scheduled : List (String × CheckRecord))
    (env : Env) (acts : List Action) (s : RunnerState)
    (hs : s = runActions env
      (startRunningPhase (freshState accountId timeout verbose) tsid scheduled) acts) :
    (∀ id, memS id s.timeouts = true → containsKey id s.checks = true)
    ∧ (disableAllTimeouts s).timeouts = []
    ∧ (disableAllTimeouts s).sdTimerPending = false := by
  have hCore := coreInv_runActions env
    (coreInv_init accountId timeout verbose tsid scheduled) acts
  rw [← hs] at hCore
  have hsub : ∀ id, memS id s.timeouts = true → containsKey id s.checks = true := by
    intro id hmem
    rw [hCore.checks_eq]
    exact hCore.tmSub id hmem
  refine ⟨hsub, disableAllTimeouts_empties s hsub, ?_⟩
  rw [disableAllTimeouts_spec]

theorem timeouts_subset_checks_invariant_witness :
    (disableAllTimeouts (runActions envW initW actsW)).timeouts = [] := by
  have h := timeouts_subset_checks_invariant "acct" 5 false (some "sess") schedW envW
    actsW (runActions envW initW actsW) rfl
  exact h.2.1

/-- Claim C10: a `run-end` message for an active, known check whose decoded
result has no `assets` field makes `processCheckResult` throw (the
destructuring of `result.assets` happens before any path guard), so the
handler aborts after having disabled the timeout: no `CHECK_SUCCESSFUL` or
`CHECK_FINISHED` is emitted, and this branch is reached from the public
`processMessage` entry point. -/
theorem runEnd_missing_assets_throws (env : Env) (s : RunnerState) (checkRunId : String)
    (message : Message) (entry : CheckRecord) (result : CheckResult)
    (hm : memS checkRunId s.timeouts = true)
    (hg : mapGet checkRunId s.checks = some entry)
    (hr : message.result = some result) (ha : result.assets = none) :
    processCheckResult env s.verbose result = .error ()
    ∧ processMessage env s checkRunId "run-end" message = disableTimeout s checkRunId := by
  refine ⟨processCheckResult_throws env s.verbose result ha, ?_⟩
  rw [processMessage_runEnd env s checkRunId message entry hm hg]
  exact processRunEnd_no_assets env s checkRunId entry message result hr ha

theorem runEnd_missing_assets_throws_witness :
    processMessage envW initW "a" "run-end" noAssetsW = disableTimeout initW "a" := by
  have h := runEnd_missing_assets_throws envW initW "a" noAssetsW
    { check := "check-a", testResultId := some "tr-a" }
    { assets := none, hasFailures := false, logs := none, checkRunData := none }
    (by decide) (by decide) rfl rfl
  exact h.2

end CheckRunner
